import Mathlib

/-!
Verification development for the adaptive interview backend.

The definitions below are shallow embeddings of the Python sources:
  app/services/memory_manager.py    (sessions, question records, report)
  app/services/interview_engine.py  (oracle post-processing and fallbacks)
  app/services/rag_engine.py        (chunk store and retrieval)
  app/routes/interview_routes.py    (the per-request decision cycles)

The text-generation oracle is a black box: each engine operation takes an
"Option Raw..." argument, where "none" covers both an unconfigured or
unreachable oracle and output that fails JSON parsing or field access
(the Python code routes both cases to the same deterministic fallback),
and "some r" carries the parsed fields, optional exactly where the Python
code applies .get or setdefault defaults.  Timestamps are passed in as
natural numbers standing for time.time().  Python strings are modelled by
Lean String except in the retrieval engine, where character-level
splitting matters and text is List Char.
-/

set_option linter.unusedVariables false

namespace AiInterviewer

/-- Structured resume profile.  Only the skills field is read by the code
modelled here (the deterministic fallback); the remaining profile fields
are consumed solely inside oracle prompts, which are oracle input.
"none" models a dict without a skills key. -/
structure Resume where
  skills : Option (List String) := none
deriving DecidableEq

/-- Parsed oracle output for analyze_and_next_question, before the
setdefault/clamping post-processing.  Every field is optional because the
Python code defaults each one. -/
structure RawNext where
  analysis : Option String := none
  score : Option Int := none
  next_question : Option String := none
  category : Option String := none
  topic : Option String := none
  should_end : Option Bool := none
  end_reason : Option String := none
deriving DecidableEq

/-- Parsed oracle output for generate_after_skip, before defaulting. -/
structure RawSkip where
  next_question : Option String := none
  category : Option String := none
  topic : Option String := none
deriving DecidableEq

/-- Parsed oracle output for generate_first_question.  The question and
category fields are accessed unconditionally by the caller; only topic is
defaulted (setdefault to "introduction"). -/
structure RawFirst where
  question : String
  category : String
  topic : Option String := none
deriving DecidableEq

/-- The validated decision record every engine operation returns to the
routes (interview_engine.py's result dict after defaulting/clamping). -/
structure NextResult where
  analysis : String
  score : Int
  next_question : String
  category : String
  topic : String
  should_end : Bool
  end_reason : String
deriving DecidableEq

/-- Result of generate_first_question after defaulting. -/
structure FirstQ where
  question : String
  category : String
  topic : String
deriving DecidableEq

/-- interview_engine._fallback_next: deterministic rotation used when the
oracle is unavailable or its output is malformed.  Note that the
topic_count and current_topic parameters are accepted but never used by
the Python function body. -/
def _fallback_next (resume_data : Resume) (q_num : Nat) (topic_count : Nat)
    (current_topic : String) : NextResult :=
  let skills := resume_data.skills.getD ["programming"]
  let s1 := skills.headD "programming"
  let s2 := if skills.length > 1 then skills.getD 1 "your domain" else "your domain"
  let pool : List (String × String × String) := [
    ("Can you tell me what " ++ s1 ++ " is and why you like using it?", "skill", s1),
    ("Tell me about a project you enjoyed working on. What did you build?", "project", "projects"),
    ("When you find a bug in your code, what is the first thing you usually do?", "behavioral", "problem_solving"),
    ("What is " ++ s2 ++ " used for in simple terms?", "technical", s2),
    ("Tell me about something you learned recently that you found interesting.", "behavioral", "learning"),
    ("Have you used Git before? What basic commands do you use most often?", "technical", "git"),
    ("How do you usually learn a new technology or tool?", "general", "learning"),
    ("What is the difference between frontend and backend development?", "technical", "basics")]
  let idx := min q_num (pool.length - 1)
  let fb := pool.getD idx ("", "", "")
  { analysis := "Fallback mode — LLM unavailable", score := 5,
    next_question := fb.1, category := fb.2.1, topic := fb.2.2,
    should_end := false, end_reason := "" }

/-- interview_engine.analyze_and_next_question: oracle call plus
unconditional defaulting and score clamping; falls back to the
deterministic rotation when the oracle is absent or malformed. -/
def analyze_and_next_question (oracle : Option RawNext) (resume_data : Resume)
    (current_topic : String) (topic_question_count : Nat)
    (total_questions_asked : Nat) (total_weak_streak : Nat) : NextResult :=
  match oracle with
  | none => _fallback_next resume_data total_questions_asked topic_question_count current_topic
  | some r =>
    { analysis := r.analysis.getD "Answer analyzed.",
      score := min (max (r.score.getD 5) 1) 10,
      next_question := r.next_question.getD "Can you tell me more about that?",
      category := r.category.getD "general",
      topic := r.topic.getD current_topic,
      should_end := r.should_end.getD false,
      end_reason := r.end_reason.getD "" }

/-- interview_engine.generate_after_skip: local forced-termination
short-circuit first (before any oracle interaction), then oracle call
with defaulting, synthesizing score 0 and should_end false; deterministic
fallback otherwise. -/
def generate_after_skip (oracle : Option RawSkip) (resume_data : Resume)
    (total_questions_asked : Nat) (total_weak_streak : Nat) : NextResult :=
  if 3 ≤ total_weak_streak ∧ 5 ≤ total_questions_asked then
    { analysis := "Candidate skipped again with too many weak responses.",
      score := 0,
      next_question := "Thank you for your time. That concludes our interview.",
      category := "general", topic := "closing", should_end := true,
      end_reason := "Too many consecutive skips and weak answers" }
  else
    match oracle with
    | none => _fallback_next resume_data total_questions_asked 0 "new"
    | some r =>
      { analysis := "Candidate skipped — moving to different topic.",
        score := 0,
        next_question := r.next_question.getD "Tell me about another project you worked on.",
        category := r.category.getD "general",
        topic := r.topic.getD "new_topic",
        should_end := false, end_reason := "" }

/-- interview_engine.generate_first_question: fixed opener when the
oracle is absent or malformed; otherwise the parsed result with topic
defaulted to "introduction". -/
def generate_first_question (oracle : Option RawFirst) (resume_data : Resume) : FirstQ :=
  match oracle with
  | none => { question := "Tell me about yourself and your background.",
              category := "general", topic := "introduction" }
  | some r => { question := r.question, category := r.category,
                topic := r.topic.getD "introduction" }

/-- memory_manager.QuestionRecord. -/
structure QuestionRecord where
  question_number : Nat
  question : String
  category : String
  answer : Option String := none
  score : Int := 0
  feedback : String := ""
  skipped : Bool := false
deriving DecidableEq

/-- memory_manager.InterviewSession.  The resume_summary field is filled
by the resume-upload route right after create_session; we fold that into
session creation since no claim separates the two steps.  resume_text is
kept only for the upload route and unused by modelled code, so omitted. -/
structure Session where
  resume_summary : Resume := {}
  questions : List QuestionRecord := []
  current_question_index : Nat := 0
  started : Bool := false
  finished : Bool := false
  start_time : Nat := 0
  end_time : Nat := 0
  conversation_history : List (String × String) := []
  current_topic : String := "introduction"
  topic_question_count : Nat := 0
  weak_streak : Nat := 0
deriving DecidableEq

/-- memory_manager.create_session (with the resume summary installed, see
Session). -/
def create_session (resume : Resume) : Session :=
  { resume_summary := resume }

/-- memory_manager.add_question: appends a record whose ordinal is the
new length of the question list. -/
def add_question (s : Session) (question category : String) : Session :=
  { s with questions := s.questions ++
      [{ question_number := s.questions.length + 1,
         question := question, category := category }] }

/-- memory_manager.record_answer: writes answer/score/feedback into the
record at the current index and advances the index, only when the
question list is nonempty and the index is strictly below its length. -/
def record_answer (s : Session) (answer : String) (score : Int) (feedback : String) :
    Session :=
  if s.questions.isEmpty then s
  else if h : s.current_question_index < s.questions.length then
    { s with
      questions := s.questions.set s.current_question_index
        { s.questions.get ⟨s.current_question_index, h⟩ with
          answer := some answer, score := score, feedback := feedback },
      current_question_index := s.current_question_index + 1 }
  else s

/-- memory_manager.record_skip: marks the record at the current index as
skipped and advances the index, under the same guards as record_answer. -/
def record_skip (s : Session) : Session :=
  if s.questions.isEmpty then s
  else if h : s.current_question_index < s.questions.length then
    { s with
      questions := s.questions.set s.current_question_index
        { s.questions.get ⟨s.current_question_index, h⟩ with skipped := true },
      current_question_index := s.current_question_index + 1 }
  else s

/-- memory_manager.add_to_history. -/
def add_to_history (s : Session) (role content : String) : Session :=
  { s with conversation_history := s.conversation_history ++ [(role, content)] }

/-- interview_routes.start_interview on an existing session: a second
start is rejected (HTTP 400, no state change); otherwise the first
question is generated, stored, and the session moves to IN_PROGRESS. -/
def start_interview (oracle : Option RawFirst) (now : Nat) (s : Session) : Session :=
  if s.started then s
  else
    let first_q := generate_first_question oracle s.resume_summary
    let s1 := add_question s first_q.question first_q.category
    let s2 := { s1 with
      started := true
      start_time := now
      current_topic := first_q.topic
      topic_question_count := 1
      weak_streak := 0 }
    add_to_history s2 "interviewer" first_q.question

/-- interview_routes.submit_answer: one full decision cycle.  Guards
reject not-started and finished sessions (no state change).  When the
index has reached the question count the session is closed directly.
Otherwise: record answer, update weak streak and topic tracking, then
either finish (oracle should_end honoured unconditionally) or append the
next question. -/
def submit_answer (oracle : Option RawNext) (answer : String) (now : Nat)
    (s : Session) : Session :=
  if ¬ s.started then s
  else if s.finished then s
  else if s.questions.length ≤ s.current_question_index then
    { s with finished := true, end_time := now }
  else
    let s1 := add_to_history s "candidate" answer
    let result := analyze_and_next_question oracle s1.resume_summary s1.current_topic
      s1.topic_question_count s1.questions.length s1.weak_streak
    let s2 := record_answer s1 answer result.score result.analysis
    let new_weak_streak := if result.score ≤ 5 then s1.weak_streak + 1 else 0
    let new_topic := result.topic
    let new_topic_count :=
      if new_topic ≠ s1.current_topic then 1 else s1.topic_question_count + 1
    let s3 := { s2 with
      current_topic := new_topic
      topic_question_count := new_topic_count
      weak_streak := new_weak_streak }
    if result.should_end then { s3 with finished := true, end_time := now }
    else
      let s4 := add_question s3 result.next_question result.category
      add_to_history s4 "interviewer" result.next_question

/-- interview_routes.skip_question: record the skip, bump the weak
streak, then either finish on the engine's forced termination or store
the new question and reset topic tracking to the (defaulted) new topic
with count 1. -/
def skip_question (oracle : Option RawSkip) (now : Nat) (s : Session) : Session :=
  if ¬ s.started then s
  else if s.finished then s
  else
    let s1 := record_skip s
    let new_weak_streak := s.weak_streak + 1
    let s2 := { s1 with weak_streak := new_weak_streak }
    let result := generate_after_skip oracle s2.resume_summary
      s2.questions.length new_weak_streak
    if result.should_end then { s2 with finished := true, end_time := now }
    else
      let new_topic := result.topic
      let s3 := add_question s2 result.next_question result.category
      let s4 := add_to_history s3 "interviewer" result.next_question
      { s4 with current_topic := new_topic, topic_question_count := 1 }

/-- interview_routes.end_interview: unconditional transition to
FINISHED. -/
def end_interview (now : Nat) (s : Session) : Session :=
  { s with finished := true, end_time := now }

/-- One public mutating operation on a session (start, answer, skip,
end); create is session initialisation and report is read-only, so the
reachable states are exactly the folds of these over a created session. -/
inductive Op where
  | start (oracle : Option RawFirst) (now : Nat)
  | answer (oracle : Option RawNext) (ans : String) (now : Nat)
  | skip (oracle : Option RawSkip) (now : Nat)
  | stop (now : Nat)
deriving DecidableEq

/-- Apply one public operation. -/
def applyOp (s : Session) : Op → Session
  | .start oracle now => start_interview oracle now s
  | .answer oracle ans now => submit_answer oracle ans now s
  | .skip oracle now => skip_question oracle now s
  | .stop now => end_interview now s

/-- Run a sequence of public operations from a fresh session. -/
def runOps (resume : Resume) (ops : List Op) : Session :=
  ops.foldl applyOp (create_session resume)

/-- Python truthiness of the optional answer string: present and
nonempty (memory_manager.get_session_report filters on "q.answer"). -/
def answerTruthy : Option String → Bool
  | none => false
  | some a => !(a == "")

/-- The answered-partition predicate of get_session_report. -/
def isAnswered (q : QuestionRecord) : Bool :=
  !q.skipped && answerTruthy q.answer

/-- The best-answer eligibility predicate of get_session_report:
category in technical/skill/project and score at least 6. -/
def isTechnicalStrong (q : QuestionRecord) : Bool :=
  (q.category == "technical" || q.category == "skill" || q.category == "project")
    && decide (6 ≤ q.score)

/-- Python max(iterable, key=score): the first element of maximal score
(ties keep the earliest), none on an empty list. -/
def pyMaxByScore : List QuestionRecord → Option QuestionRecord
  | [] => none
  | q :: qs => some (qs.foldl (fun b x => if b.score < x.score then x else b) q)

/-- Python min(iterable, key=score): the first element of minimal score,
none on an empty list. -/
def pyMinByScore : List QuestionRecord → Option QuestionRecord
  | [] => none
  | q :: qs => some (qs.foldl (fun b x => if x.score < b.score then x else b) q)

/-- Round to the nearest integer, ties to the even integer (the tie rule
of Python round on exactly representable values). -/
def roundHalfEven (x : ℚ) : ℤ :=
  let f := ⌊x⌋
  if x - f < 1/2 then f
  else if (1 : ℚ)/2 < x - f then f + 1
  else if f % 2 = 0 then f else f + 1

/-- Python round(x, 1) modelled on exact rationals: round 10x to the
nearest integer (ties to even) and divide by 10.  The Python original
operates on binary floats, so on values not exactly representable the
two can differ in the last decimal; the claims under verification do not
depend on those cases. -/
def pyRound1 (x : ℚ) : ℚ := (roundHalfEven (10 * x) : ℚ) / 10

/-- The report dict of memory_manager.get_session_report. -/
structure Report where
  total_questions : Nat
  answered : Nat
  skipped : Nat
  average_score : ℚ
  best_answer : Option QuestionRecord
  worst_answer : Option QuestionRecord
  results : List QuestionRecord
  duration_seconds : Nat

/-- memory_manager.get_session_report on an existing session. -/
def get_session_report (s : Session) : Report :=
  let answered := s.questions.filter isAnswered
  let skipped := s.questions.filter (fun q => q.skipped)
  let technical_answered := answered.filter isTechnicalStrong
  let best_answer := pyMaxByScore technical_answered
  let worst_answer := pyMinByScore answered
  let avg_score : ℚ :=
    if answered.isEmpty then 0
    else ((answered.map (fun q => (q.score : ℚ))).sum) / answered.length
  { total_questions := s.questions.length
    answered := answered.length
    skipped := skipped.length
    average_score := pyRound1 avg_score
    best_answer := best_answer
    worst_answer := worst_answer
    results := s.questions
    duration_seconds := if s.end_time ≠ 0 then s.end_time - s.start_time else 0 }

/-! ### Retrieval engine (rag_engine.py)

Text is modelled at the character level (List Char) because chunking and
tokenization split strings. -/

/-- Character-level text. -/
abbrev Chars := List Char

/-- Whitespace as recognised by Python str.split and str.strip (ASCII
subset; 11 and 12 are vertical tab and form feed). -/
def pyIsSpace (c : Char) : Bool :=
  c = ' ' || c = '\t' || c = '\n' || c = '\r' || c.toNat = 11 || c.toNat = 12

/-- Worker for splitWs: acc holds the current in-progress word,
reversed. -/
def splitWsAux : Chars → Chars → List Chars
  | [], acc => if acc.isEmpty then [] else [acc.reverse]
  | c :: cs, acc =>
    if pyIsSpace c then
      if acc.isEmpty then splitWsAux cs [] else acc.reverse :: splitWsAux cs []
    else splitWsAux cs (c :: acc)

/-- Python text.split(): maximal nonempty runs of non-whitespace. -/
def splitWs (s : Chars) : List Chars := splitWsAux s []

/-- Python sep.join for a one-character separator. -/
def joinWith (sep : Char) : List Chars → Chars
  | [] => []
  | [w] => w
  | w :: ws => w ++ sep :: joinWith sep ws

/-- Python text.strip(): drop whitespace from both ends. -/
def pyStrip (l : Chars) : Chars :=
  ((l.dropWhile pyIsSpace).reverse.dropWhile pyIsSpace).reverse

/-- Consecutive non-overlapping windows of n elements (Python
range(0, len, n) slicing); n is used as max n 1, mirroring the guarded
step of store_resume_chunks. -/
def chunksOf (n : Nat) : List α → List (List α)
  | [] => []
  | x :: xs =>
    (x :: xs).take (max n 1) :: chunksOf n ((x :: xs).drop (max n 1))
  termination_by l => l.length
  decreasing_by simp [List.length_drop]

/-- rag_engine.store_resume_chunks, chunk-list part: split into words,
join each window of chunk_size words, keep windows whose text strips to
nonempty, and fall back to the raw text as one chunk if none remain. -/
def store_chunks_of_text (text : Chars) (chunk_size : Nat) : List Chars :=
  let words := splitWs text
  let step := max chunk_size 1
  let chunks := ((chunksOf step words).map (joinWith ' ')).filter
    (fun c => !(pyStrip c).isEmpty)
  if chunks.isEmpty then [text] else chunks

/-- The in-memory chunk store (rag_engine._store): a map from session
key to stored chunk list. -/
abbrev RagStore := String → Option (List Chars)

/-- The empty store. -/
def emptyStore : RagStore := fun _ => none

/-- rag_engine.store_resume_chunks: store the chunk list under the key,
replacing any prior entry. -/
def store_resume_chunks (st : RagStore) (session_id : String) (text : Chars)
    (chunk_size : Nat) : RagStore :=
  fun k => if k = session_id then some (store_chunks_of_text text chunk_size) else st k

/-- ASCII letter. -/
def isAlphaChar (c : Char) : Bool :=
  ('a' ≤ c && c ≤ 'z') || ('A' ≤ c && c ≤ 'Z')

/-- Worker for _tokenize: maximal runs of letters. -/
def tokenizeAux : Chars → Chars → List Chars
  | [], acc => if acc.isEmpty then [] else [acc.reverse]
  | c :: cs, acc =>
    if isAlphaChar c then tokenizeAux cs (c :: acc)
    else if acc.isEmpty then tokenizeAux cs []
    else acc.reverse :: tokenizeAux cs []

/-- rag_engine._tokenize: lowercase, then the alphabetic runs. -/
def _tokenize (text : Chars) : List Chars :=
  tokenizeAux (text.map Char.toLower) []

/-- Number of occurrences of a token (Counter lookup). -/
def countTok (l : List Chars) (t : Chars) : Nat :=
  (l.filter (fun x => x = t)).length

/-- rag_engine._compute_similarity: cosine similarity of term-frequency
vectors.  The Python original computes on floats; the shallow embedding
uses real numbers, with Real.sqrt for math.sqrt. -/
noncomputable def _compute_similarity (query_tokens doc_tokens : List Chars) : ℝ :=
  if query_tokens.isEmpty || doc_tokens.isEmpty then 0
  else
    let all_tokens := (query_tokens ++ doc_tokens).dedup
    let dot_product : ℝ :=
      ((all_tokens.map (fun t => countTok query_tokens t * countTok doc_tokens t)).sum : ℕ)
    let q_norm : ℝ :=
      Real.sqrt (((query_tokens.dedup.map (fun t => countTok query_tokens t ^ 2)).sum : ℕ))
    let d_norm : ℝ :=
      Real.sqrt (((doc_tokens.dedup.map (fun t => countTok doc_tokens t ^ 2)).sum : ℕ))
    if q_norm = 0 ∨ d_norm = 0 then 0
    else dot_product / (q_norm * d_norm)

/-- rag_engine.retrieve_context: empty string when the key has no
chunks; otherwise chunks stably sorted by descending similarity to the
query, top n joined with newlines. -/
noncomputable def retrieve_context (st : RagStore) (session_id : String)
    (query : Chars) (n_results : Nat) : Chars :=
  let chunks := (st session_id).getD []
  if chunks.isEmpty then []
  else
    let query_tokens := _tokenize query
    let scored := chunks.map
      (fun chunk => (_compute_similarity query_tokens (_tokenize chunk), chunk))
    let sorted := scored.mergeSort (fun a b => decide (b.1 ≤ a.1))
    joinWith '\n' ((sorted.take n_results).map (fun p => p.2))

/-- rag_engine.cleanup_session: dict.pop with a default, so removing an
absent key is a no-op. -/
def cleanup_session (st : RagStore) (session_id : String) : RagStore :=
  fun k => if k = session_id then none else st k

/-- rag_engine.get_full_resume_text: all chunks for the key, space
joined; empty string when absent. -/
def get_full_resume_text (st : RagStore) (session_id : String) : Chars :=
  joinWith ' ' ((st session_id).getD [])

/-! ### Claims about the engine operations -/

/-- C4: whenever afterSkip (generate_after_skip) is invoked with
weak_streak at least 3 and total questions asked at least 5, it returns a
forced-termination decision with should_end true, and the result is
identical whatever the oracle argument is (in particular identical to the
unconfigured-oracle case), so no oracle call can influence it. -/
theorem after_skip_forced_termination (oracle : Option RawSkip) (r : Resume)
    (total ws : Nat) (h3 : 3 ≤ ws) (h5 : 5 ≤ total) :
    (generate_after_skip oracle r total ws).should_end = true ∧
    generate_after_skip oracle r total ws = generate_after_skip none r total ws := by
  unfold generate_after_skip
  rw [if_pos ⟨h3, h5⟩, if_pos ⟨h3, h5⟩]
  exact ⟨rfl, rfl⟩

/-- C4 witness: concrete instance with a configured oracle, weak streak
3 and 6 questions asked. -/
theorem after_skip_forced_termination_witness :
    (generate_after_skip (some { next_question := some "q" })
      { skills := some ["python"] } 6 3).should_end = true ∧
    generate_after_skip (some { next_question := some "q" })
      { skills := some ["python"] } 6 3
      = generate_after_skip none { skills := some ["python"] } 6 3 :=
  after_skip_forced_termination (some { next_question := some "q" })
    { skills := some ["python"] } 6 3 (by decide) (by decide)

/-- C5 counterexample: with the oracle unavailable and 2 questions
already asked, the fallback produced for a skip is the very same rotation
entry as the one an ordinary answer's fallback uses (pool position 2),
contradicting the claim that the two rotation positions are distinct. -/
theorem fallback_rotation_skip_cex :
    (generate_after_skip none { skills := some ["python", "sql"] } 2 1).next_question
      = (analyze_and_next_question none { skills := some ["python", "sql"] }
          "git" 2 2 1).next_question
    ∧ (generate_after_skip none { skills := some ["python", "sql"] } 2 1).next_question
      = "When you find a bug in your code, what is the first thing you usually do?" :=
  ⟨rfl, rfl⟩

/-- C5 amended: when the oracle is unavailable or its output fails
validation and the local termination rule does not fire, the skip path
falls back to exactly _fallback_next with topic_count 0 and topic "new";
but _fallback_next ignores those two arguments entirely, so for the same
number of questions already asked the skip fallback draws from the same
rotation position as an ordinary answer's fallback, not a distinct one. -/
theorem fallback_rotation_shared_index (r : Resume) (total ws tc tc' : Nat)
    (ct ct' : String) (h : ¬(3 ≤ ws ∧ 5 ≤ total)) :
    generate_after_skip none r total ws = _fallback_next r total 0 "new"
    ∧ _fallback_next r total tc ct = _fallback_next r total tc' ct' := by
  constructor
  · unfold generate_after_skip
    rw [if_neg h]
  · rfl

/-- C5 witness for the amended statement: 2 questions asked, weak streak
1, differing topic counts and topics. -/
theorem fallback_rotation_shared_index_witness :
    generate_after_skip none { skills := some ["go"] } 2 1
      = _fallback_next { skills := some ["go"] } 2 0 "new"
    ∧ _fallback_next { skills := some ["go"] } 2 0 "new"
      = _fallback_next { skills := some ["go"] } 2 3 "git" :=
  fallback_rotation_shared_index { skills := some ["go"] } 2 1 0 3 "new" "git"
    (by decide)

/-- C10: for a key holding no chunks, retrieval is total and benign:
query returns the empty string, getFullText returns the empty string, and
cleanup leaves the store extensionally unchanged. -/
theorem missing_key_retrieval_total (st : RagStore) (sid : String)
    (query : Chars) (n : Nat) (h : st sid = none) :
    retrieve_context st sid query n = [] ∧
    get_full_resume_text st sid = [] ∧
    cleanup_session st sid = st := by
  refine ⟨?_, ?_, ?_⟩
  · unfold retrieve_context
    rw [h]
    rfl
  · unfold get_full_resume_text
    rw [h]
    rfl
  · funext k
    unfold cleanup_session
    by_cases hk : k = sid
    · rw [if_pos hk, hk, h]
    · rw [if_neg hk]

/-- C10 witness: the empty store and an arbitrary key. -/
theorem missing_key_retrieval_total_witness :
    retrieve_context emptyStore "s1" ['a', 'p', 'i'] 3 = [] ∧
    get_full_resume_text emptyStore "s1" = [] ∧
    cleanup_session emptyStore "s1" = emptyStore :=
  missing_key_retrieval_total emptyStore "s1" ['a', 'p', 'i'] 3 rfl

/-! ### Helper lemmas on the session operations -/

theorem record_answer_questions_length (s : Session) (a : String) (sc : Int)
    (fb : String) : (record_answer s a sc fb).questions.length = s.questions.length := by
  unfold record_answer
  split
  · rfl
  · split
    · simp [List.length_set]
    · rfl

theorem record_skip_questions_length (s : Session) :
    (record_skip s).questions.length = s.questions.length := by
  unfold record_skip
  split
  · rfl
  · split
    · simp [List.length_set]
    · rfl

theorem record_skip_resume_summary (s : Session) :
    (record_skip s).resume_summary = s.resume_summary := by
  unfold record_skip
  split
  · rfl
  · split <;> rfl

theorem record_answer_index (s : Session) (a : String) (sc : Int) (fb : String) :
    (record_answer s a sc fb).current_question_index =
      if s.current_question_index < s.questions.length then
        s.current_question_index + 1
      else s.current_question_index := by
  unfold record_answer
  split
  · rename_i h
    rw [List.isEmpty_iff] at h
    rw [if_neg]
    rw [h]
    simp
  · split
    · rfl
    · rfl

theorem record_skip_index (s : Session) :
    (record_skip s).current_question_index =
      if s.current_question_index < s.questions.length then
        s.current_question_index + 1
      else s.current_question_index := by
  unfold record_skip
  split
  · rename_i h
    rw [List.isEmpty_iff] at h
    rw [if_neg]
    rw [h]
    simp
  · split
    · rfl
    · rfl

/-- submit_answer on the main decision-cycle path, written with the
session fields it actually reads. -/
theorem submit_answer_main (oracle : Option RawNext) (ans : String) (now : Nat)
    (s : Session) (hs : s.started = true) (hf : s.finished = false)
    (hi : s.current_question_index < s.questions.length) :
    submit_answer oracle ans now s =
      (let r := analyze_and_next_question oracle s.resume_summary s.current_topic
         s.topic_question_count s.questions.length s.weak_streak
       let s2 := record_answer (add_to_history s "candidate" ans) ans r.score r.analysis
       let s3 := { s2 with
         current_topic := r.topic
         topic_question_count := if r.topic ≠ s.current_topic then 1
           else s.topic_question_count + 1
         weak_streak := if r.score ≤ 5 then s.weak_streak + 1 else 0 }
       if r.should_end then { s3 with finished := true, end_time := now }
       else add_to_history (add_question s3 r.next_question r.category)
         "interviewer" r.next_question) := by
  unfold submit_answer
  rw [if_neg (by simp [hs]), if_neg (by simp [hf]), if_neg (Nat.not_le.mpr hi)]
  rfl

/-- skip_question when the guards pass, written with the session fields
it actually reads. -/
theorem skip_question_main (oracle : Option RawSkip) (now : Nat) (s : Session)
    (hs : s.started = true) (hf : s.finished = false) :
    skip_question oracle now s =
      (let r := generate_after_skip oracle (record_skip s).resume_summary
         (record_skip s).questions.length (s.weak_streak + 1)
       let s2 := { record_skip s with weak_streak := s.weak_streak + 1 }
       if r.should_end then { s2 with finished := true, end_time := now }
       else { add_to_history (add_question s2 r.next_question r.category)
                "interviewer" r.next_question with
              current_topic := r.topic
              topic_question_count := 1 }) := by
  unfold skip_question
  rw [if_neg (by simp [hs]), if_neg (by simp [hf])]

theorem record_skip_finished (s : Session) : (record_skip s).finished = s.finished := by
  unfold record_skip
  split
  · rfl
  · split <;> rfl

/-- A small in-progress session (one question asked, none answered) used
as the concrete instance in witnesses. -/
def sessionW : Session :=
  { resume_summary := { skills := some ["python"] }
    questions := [{ question_number := 1
                    question := "Tell me about yourself."
                    category := "general" }]
    current_question_index := 0
    started := true
    finished := false
    start_time := 3
    conversation_history := [("interviewer", "Tell me about yourself.")]
    current_topic := "introduction"
    topic_question_count := 1
    weak_streak := 0 }

/-- C1 counterexample: a reachable 1-question session is transitioned to
FINISHED as a direct consequence of the oracle signalling should_end,
although only 1 question (fewer than 5) has been asked; with the same
oracle output except should_end false the session stays unfinished, so
the early finish is caused by the should_end signal alone. -/
theorem question_floor_cex :
    (let endOracle : RawNext := { analysis := some "a"
                                  score := some 7
                                  next_question := some "bye"
                                  category := some "general"
                                  topic := some "t"
                                  should_end := some true
                                  end_reason := some "done" }
     let s1 := runOps { skills := some ["python"] }
       [Op.start none 0, Op.answer (some endOracle) "hi" 1]
     let s2 := runOps { skills := some ["python"] }
       [Op.start none 0, Op.answer (some { endOracle with should_end := some false }) "hi" 1]
     s1.finished = true ∧ s1.questions.length = 1 ∧ s2.finished = false) := by
  decide

/-- C1 amended: the code enforces no 5-question floor on the answer
path: an in-progress answer cycle finishes the session whenever the
oracle output carries should_end true, regardless of how few questions
have been asked (the floor exists only as an instruction inside the
oracle prompt).  Only the skip path owns a local floor: with fewer than
5 questions asked, a skip never transitions the session to FINISHED. -/
theorem answer_path_ignores_question_floor (oracle : RawNext) (ans : String)
    (now : Nat) (s : Session) (hs : s.started = true) (hf : s.finished = false)
    (hi : s.current_question_index < s.questions.length)
    (hend : oracle.should_end = some true) :
    (submit_answer (some oracle) ans now s).finished = true
    ∧ ∀ (ok : Option RawSkip) (now2 : Nat), s.questions.length < 5 →
        (skip_question ok now2 s).finished = false := by
  constructor
  · rw [submit_answer_main (some oracle) ans now s hs hf hi]
    have hse : (analyze_and_next_question (some oracle) s.resume_summary s.current_topic
        s.topic_question_count s.questions.length s.weak_streak).should_end = true := by
      simp [analyze_and_next_question, hend]
    dsimp only
    simp [hse]
  · intro ok now2 hlen
    rw [skip_question_main ok now2 s hs hf]
    have hse : (generate_after_skip ok (record_skip s).resume_summary
        (record_skip s).questions.length (s.weak_streak + 1)).should_end = false := by
      rw [record_skip_questions_length]
      unfold generate_after_skip
      rw [if_neg (by omega : ¬(3 ≤ s.weak_streak + 1 ∧ 5 ≤ s.questions.length))]
      cases ok <;> rfl
    dsimp only
    simp only [hse, Bool.false_eq_true, if_false]
    show (record_skip s).finished = false
    rw [record_skip_finished]
    exact hf

/-- C1 witness for the amended statement: concrete in-progress session
with one question asked. -/
theorem answer_path_ignores_question_floor_witness :
    (submit_answer (some { should_end := some true }) "a" 9 sessionW).finished = true
    ∧ (skip_question none 9 sessionW).finished = false :=
  ⟨(answer_path_ignores_question_floor { should_end := some true } "a" 9 sessionW
      rfl rfl (by decide) rfl).1,
   (answer_path_ignores_question_floor { should_end := some true } "a" 9 sessionW
      rfl rfl (by decide) rfl).2 none 9 (by decide)⟩

/-- C2: in a decision cycle on an in-progress session, the answer path
sets weak_streak to 0 exactly when the validated score of the just-scored
event exceeds 5 and increments it by exactly 1 otherwise; a skip always
counts as weak and increments weak_streak by exactly 1. -/
theorem weak_streak_update_rule (oracle : Option RawNext) (ans : String) (now : Nat)
    (s : Session) (hs : s.started = true) (hf : s.finished = false)
    (hi : s.current_question_index < s.questions.length) :
    ((submit_answer oracle ans now s).weak_streak =
      if 5 < (analyze_and_next_question oracle s.resume_summary s.current_topic
        s.topic_question_count s.questions.length s.weak_streak).score then 0
      else s.weak_streak + 1)
    ∧ ∀ ok : Option RawSkip, (skip_question ok now s).weak_streak = s.weak_streak + 1 := by
  constructor
  · rw [submit_answer_main oracle ans now s hs hf hi]
    generalize (analyze_and_next_question oracle s.resume_summary s.current_topic
      s.topic_question_count s.questions.length s.weak_streak) = r
    by_cases h5 : r.score ≤ 5
    · rw [if_neg (by omega : ¬(5 : Int) < r.score)]
      dsimp only [add_to_history, add_question]
      split <;> simp [h5]
    · rw [if_pos (by omega : (5 : Int) < r.score)]
      dsimp only [add_to_history, add_question]
      split <;> simp [h5]
  · intro ok
    rw [skip_question_main ok now s hs hf]
    dsimp only [add_to_history, add_question]
    split <;> rfl

/-- C2 witness: concrete session, a strong answer (score 9) and the skip
path. -/
theorem weak_streak_update_rule_witness :
    ((submit_answer (some { score := some 9 }) "ans" 7 sessionW).weak_streak =
      if 5 < (analyze_and_next_question (some { score := some 9 })
        sessionW.resume_summary sessionW.current_topic sessionW.topic_question_count
        sessionW.questions.length sessionW.weak_streak).score then 0
      else sessionW.weak_streak + 1)
    ∧ ∀ ok : Option RawSkip,
        (skip_question ok 7 sessionW).weak_streak = sessionW.weak_streak + 1 :=
  weak_streak_update_rule (some { score := some 9 }) "ans" 7 sessionW rfl rfl (by decide)

/-- C3 counterexample: a reachable skip cycle in which the oracle
returns a topic label equal to the prior current_topic ("git", with
topic_question_count 2): the claimed biconditional demands the count be
incremented to 3, but the code resets it to 1 on every non-terminating
skip. -/
theorem topic_tracking_skip_cex :
    (let s2 := runOps { skills := some ["python"] }
       [Op.start (some { question := "q0", category := "general", topic := some "git" }) 0,
        Op.answer (some { score := some 7
                          next_question := some "q1"
                          category := some "technical"
                          topic := some "git"
                          should_end := some false }) "a1" 1]
     let s3 := applyOp s2 (Op.skip (some { next_question := some "q2"
                                           category := some "technical"
                                           topic := some "git" }) 2)
     s2.current_topic = "git" ∧ s2.topic_question_count = 2
       ∧ s3.current_topic = "git" ∧ s3.topic_question_count = 1) := by
  decide

/-- C3 amended: on the answer path the biconditional holds —
topic_question_count becomes 1 exactly when the validated topic differs
from the prior current_topic and is incremented by 1 otherwise, the new
topic being adopted in both cases.  On the skip path, whenever the cycle
does not terminate the interview, topic_question_count is set to 1 and
the returned topic adopted unconditionally, even when that topic equals
the prior current_topic. -/
theorem topic_tracking_update_rule (oracle : Option RawNext) (ans : String)
    (now : Nat) (s : Session) (hs : s.started = true) (hf : s.finished = false)
    (hi : s.current_question_index < s.questions.length) :
    (let r := analyze_and_next_question oracle s.resume_summary s.current_topic
       s.topic_question_count s.questions.length s.weak_streak
     (submit_answer oracle ans now s).current_topic = r.topic
     ∧ (submit_answer oracle ans now s).topic_question_count =
         if r.topic ≠ s.current_topic then 1 else s.topic_question_count + 1)
    ∧ ∀ ok : Option RawSkip,
        (let rs := generate_after_skip ok s.resume_summary s.questions.length
           (s.weak_streak + 1)
         rs.should_end = false →
           (skip_question ok now s).topic_question_count = 1
           ∧ (skip_question ok now s).current_topic = rs.topic) := by
  constructor
  · rw [submit_answer_main oracle ans now s hs hf hi]
    generalize (analyze_and_next_question oracle s.resume_summary s.current_topic
      s.topic_question_count s.questions.length s.weak_streak) = r
    dsimp only [add_to_history, add_question]
    split <;> exact ⟨rfl, rfl⟩
  · intro ok
    dsimp only
    intro hend
    rw [skip_question_main ok now s hs hf, record_skip_resume_summary,
      record_skip_questions_length]
    dsimp only [add_to_history, add_question]
    rw [if_neg (by simp [hend])]
    exact ⟨rfl, rfl⟩

/-- C3 witness for the amended statement: concrete session, an answer
that keeps the topic, and a skip with a fresh topic. -/
theorem topic_tracking_update_rule_witness :
    (let r := analyze_and_next_question (some { topic := some "sql" })
       sessionW.resume_summary sessionW.current_topic sessionW.topic_question_count
       sessionW.questions.length sessionW.weak_streak
     (submit_answer (some { topic := some "sql" }) "ans" 7 sessionW).current_topic = r.topic
     ∧ (submit_answer (some { topic := some "sql" }) "ans" 7 sessionW).topic_question_count =
         if r.topic ≠ sessionW.current_topic then 1 else sessionW.topic_question_count + 1)
    ∧ (let rs := generate_after_skip (some { topic := some "sql" })
         sessionW.resume_summary sessionW.questions.length (sessionW.weak_streak + 1)
       rs.should_end = false →
         (skip_question (some { topic := some "sql" }) 7 sessionW).topic_question_count = 1
         ∧ (skip_question (some { topic := some "sql" }) 7 sessionW).current_topic = rs.topic) :=
  ⟨(topic_tracking_update_rule (some { topic := some "sql" }) "ans" 7 sessionW
      rfl rfl (by decide)).1,
   (topic_tracking_update_rule (some { topic := some "sql" }) "ans" 7 sessionW
      rfl rfl (by decide)).2 (some { topic := some "sql" })⟩

/-! ### Reachability invariants (C6, C9) -/

/-- Any property preserved by every public operation holds in every
reachable state. -/
theorem foldl_applyOp_inv (P : Session → Prop)
    (hstep : ∀ s op, P s → P (applyOp s op)) :
    ∀ (ops : List Op) (s : Session), P s → P (ops.foldl applyOp s) := by
  intro ops
  induction ops with
  | nil => intro s h; exact h
  | cons op t ih => intro s h; exact ih _ (hstep s op h)

/-- The index-bound invariant of C6. -/
def IdxInv (s : Session) : Prop :=
  s.current_question_index ≤ s.questions.length

theorem idxInv_start (o : Option RawFirst) (now : Nat) (s : Session)
    (h : IdxInv s) : IdxInv (start_interview o now s) := by
  unfold start_interview
  split
  · exact h
  · unfold IdxInv at *
    dsimp only [add_to_history, add_question]
    rw [List.length_append]
    omega

theorem idxInv_answer (o : Option RawNext) (a : String) (now : Nat) (s : Session)
    (h : IdxInv s) : IdxInv (submit_answer o a now s) := by
  unfold submit_answer
  split
  · exact h
  split
  · exact h
  split
  · exact h
  rename_i h1 h2 h3
  have hi := Nat.lt_of_not_le h3
  unfold IdxInv at *
  dsimp only [add_to_history]
  split
  · dsimp only
    rw [record_answer_index, record_answer_questions_length]
    dsimp only
    rw [if_pos hi]
    omega
  · dsimp only [add_to_history, add_question]
    rw [List.length_append, record_answer_index, record_answer_questions_length]
    dsimp only
    rw [if_pos hi]
    omega

theorem idxInv_skip (o : Option RawSkip) (now : Nat) (s : Session)
    (h : IdxInv s) : IdxInv (skip_question o now s) := by
  unfold skip_question
  split
  · exact h
  split
  · exact h
  unfold IdxInv at *
  dsimp only
  split
  · dsimp only
    rw [record_skip_index, record_skip_questions_length]
    split <;> omega
  · dsimp only [add_to_history, add_question]
    rw [List.length_append, record_skip_index, record_skip_questions_length]
    split <;> omega

theorem idxInv_applyOp (s : Session) (op : Op) (h : IdxInv s) :
    IdxInv (applyOp s op) := by
  cases op with
  | start o now => exact idxInv_start o now s h
  | answer o a now => exact idxInv_answer o a now s h
  | skip o now => exact idxInv_skip o now s h
  | stop now => exact h

/-- C6: in every state reachable through the public operations, the
current question index never exceeds the question count; and
record_answer / record_skip advance the index by exactly one when it is
strictly below the question count and leave it unchanged otherwise. -/
theorem current_index_le_question_count (r : Resume) (ops : List Op)
    (s : Session) (a fb : String) (sc : Int) :
    (runOps r ops).current_question_index ≤ (runOps r ops).questions.length
    ∧ ((record_answer s a sc fb).current_question_index =
        if s.current_question_index < s.questions.length then
          s.current_question_index + 1
        else s.current_question_index)
    ∧ ((record_skip s).current_question_index =
        if s.current_question_index < s.questions.length then
          s.current_question_index + 1
        else s.current_question_index) :=
  ⟨foldl_applyOp_inv IdxInv idxInv_applyOp ops (create_session r) (Nat.le_refl 0),
   record_answer_index s a sc fb, record_skip_index s⟩

/-- The 1-based consecutive numbering invariant of C9, stated as: the
list of stored ordinals is exactly 1, 2, ..., length. -/
def QNumInv (s : Session) : Prop :=
  s.questions.map (fun q => q.question_number) = List.range' 1 s.questions.length

theorem set_getElem_self (l : List α) (i : Nat) (h : i < l.length) :
    l.set i (l.get ⟨i, h⟩) = l := by
  apply List.ext_getElem
  · simp [List.length_set]
  · intro n h1 h2
    rw [List.getElem_set]
    split
    · rename_i he
      subst he
      rfl
    · rfl

theorem record_answer_map_qnum (s : Session) (a : String) (sc : Int) (fb : String) :
    (record_answer s a sc fb).questions.map (fun q => q.question_number)
      = s.questions.map (fun q => q.question_number) := by
  unfold record_answer
  split
  · rfl
  · split
    · rename_i h
      dsimp only
      rw [List.map_set]
      have hget : (s.questions.get ⟨s.current_question_index, h⟩).question_number
          = (s.questions.map (fun q => q.question_number)).get
              ⟨s.current_question_index, by simpa [List.length_map] using h⟩ := by
        simp [List.get_eq_getElem, List.getElem_map]
      rw [hget, set_getElem_self]
    · rfl

theorem record_skip_map_qnum (s : Session) :
    (record_skip s).questions.map (fun q => q.question_number)
      = s.questions.map (fun q => q.question_number) := by
  unfold record_skip
  split
  · rfl
  · split
    · rename_i h
      dsimp only
      rw [List.map_set]
      have hget : (s.questions.get ⟨s.current_question_index, h⟩).question_number
          = (s.questions.map (fun q => q.question_number)).get
              ⟨s.current_question_index, by simpa [List.length_map] using h⟩ := by
        simp [List.get_eq_getElem, List.getElem_map]
      rw [hget, set_getElem_self]
    · rfl

theorem qnum_add_question (s : Session) (q c : String) (h : QNumInv s) :
    QNumInv (add_question s q c) := by
  unfold QNumInv at *
  dsimp only [add_question]
  rw [List.map_append, h]
  simp [List.range'_concat, Nat.add_comm]

theorem qnum_start (o : Option RawFirst) (now : Nat) (s : Session)
    (h : QNumInv s) : QNumInv (start_interview o now s) := by
  unfold start_interview
  split
  · exact h
  · exact qnum_add_question s (generate_first_question o s.resume_summary).question
      (generate_first_question o s.resume_summary).category h

theorem qnum_answer (o : Option RawNext) (a : String) (now : Nat) (s : Session)
    (h : QNumInv s) : QNumInv (submit_answer o a now s) := by
  unfold submit_answer
  split
  · exact h
  split
  · exact h
  split
  · exact h
  have h2 : QNumInv (record_answer (add_to_history s "candidate" a) a
      (analyze_and_next_question o s.resume_summary s.current_topic
        s.topic_question_count s.questions.length s.weak_streak).score
      (analyze_and_next_question o s.resume_summary s.current_topic
        s.topic_question_count s.questions.length s.weak_streak).analysis) := by
    unfold QNumInv
    rw [record_answer_map_qnum, record_answer_questions_length]
    exact h
  dsimp only [add_to_history]
  split
  · exact h2
  · exact qnum_add_question _ _ _ h2

theorem qnum_skip (o : Option RawSkip) (now : Nat) (s : Session)
    (h : QNumInv s) : QNumInv (skip_question o now s) := by
  unfold skip_question
  split
  · exact h
  split
  · exact h
  have h2 : QNumInv (record_skip s) := by
    unfold QNumInv
    rw [record_skip_map_qnum, record_skip_questions_length]
    exact h
  dsimp only
  split
  · exact h2
  · exact qnum_add_question _ _ _ h2

theorem qnum_applyOp (s : Session) (op : Op) (h : QNumInv s) :
    QNumInv (applyOp s op) := by
  cases op with
  | start o now => exact qnum_start o now s h
  | answer o a now => exact qnum_answer o a now s h
  | skip o now => exact qnum_skip o now s h
  | stop now => exact h

/-- C9: in every state reachable through the public operations, the
stored question ordinals read off in sequence are exactly
1, 2, ..., length: equivalently, the record at 0-based position i always
has question_number i + 1, so ordinals are consecutive, 1-based and
duplicate-free. -/
theorem question_numbers_consecutive (r : Resume) (ops : List Op) :
    (runOps r ops).questions.map (fun q => q.question_number)
      = List.range' 1 (runOps r ops).questions.length :=
  foldl_applyOp_inv QNumInv qnum_applyOp ops (create_session r) rfl

/-! ### The session report (C8) -/

theorem foldl_max_mem (qs : List QuestionRecord) (b : QuestionRecord) :
    qs.foldl (fun b x => if b.score < x.score then x else b) b = b ∨
    qs.foldl (fun b x => if b.score < x.score then x else b) b ∈ qs := by
  induction qs generalizing b with
  | nil => exact Or.inl rfl
  | cons q t ih =>
    rw [List.foldl_cons]
    rcases ih (if b.score < q.score then q else b) with h | h
    · rw [h]
      split
      · exact Or.inr (List.mem_cons_self q t)
      · exact Or.inl rfl
    · exact Or.inr (List.mem_cons_of_mem q h)

theorem foldl_max_ge (qs : List QuestionRecord) (b : QuestionRecord) :
    b.score ≤ (qs.foldl (fun b x => if b.score < x.score then x else b) b).score ∧
    ∀ x ∈ qs, x.score ≤ (qs.foldl (fun b x => if b.score < x.score then x else b) b).score := by
  induction qs generalizing b with
  | nil => exact ⟨le_refl _, fun x hx => absurd hx (List.not_mem_nil x)⟩
  | cons q t ih =>
    rw [List.foldl_cons]
    obtain ⟨h1, h2⟩ := ih (if b.score < q.score then q else b)
    have hb : b.score ≤ (if b.score < q.score then q else b).score := by
      split <;> omega
    have hq : q.score ≤ (if b.score < q.score then q else b).score := by
      split <;> omega
    refine ⟨le_trans hb h1, ?_⟩
    intro x hx
    rcases List.mem_cons.mp hx with rfl | hx
    · exact le_trans hq h1
    · exact h2 x hx

theorem foldl_min_mem (qs : List QuestionRecord) (b : QuestionRecord) :
    qs.foldl (fun b x => if x.score < b.score then x else b) b = b ∨
    qs.foldl (fun b x => if x.score < b.score then x else b) b ∈ qs := by
  induction qs generalizing b with
  | nil => exact Or.inl rfl
  | cons q t ih =>
    rw [List.foldl_cons]
    rcases ih (if q.score < b.score then q else b) with h | h
    · rw [h]
      split
      · exact Or.inr (List.mem_cons_self q t)
      · exact Or.inl rfl
    · exact Or.inr (List.mem_cons_of_mem q h)

theorem foldl_min_le (qs : List QuestionRecord) (b : QuestionRecord) :
    (qs.foldl (fun b x => if x.score < b.score then x else b) b).score ≤ b.score ∧
    ∀ x ∈ qs, (qs.foldl (fun b x => if x.score < b.score then x else b) b).score ≤ x.score := by
  induction qs generalizing b with
  | nil => exact ⟨le_refl _, fun x hx => absurd hx (List.not_mem_nil x)⟩
  | cons q t ih =>
    rw [List.foldl_cons]
    obtain ⟨h1, h2⟩ := ih (if q.score < b.score then q else b)
    have hb : (if q.score < b.score then q else b).score ≤ b.score := by
      split <;> omega
    have hq : (if q.score < b.score then q else b).score ≤ q.score := by
      split <;> omega
    refine ⟨le_trans h1 hb, ?_⟩
    intro x hx
    rcases List.mem_cons.mp hx with rfl | hx
    · exact le_trans h1 hq
    · exact h2 x hx

theorem pyMaxByScore_eq_none (l : List QuestionRecord) :
    pyMaxByScore l = none ↔ l = [] := by
  cases l <;> simp [pyMaxByScore]

theorem pyMinByScore_eq_none (l : List QuestionRecord) :
    pyMinByScore l = none ↔ l = [] := by
  cases l <;> simp [pyMinByScore]

theorem pyMaxByScore_spec (l : List QuestionRecord) (b : QuestionRecord)
    (h : pyMaxByScore l = some b) : b ∈ l ∧ ∀ x ∈ l, x.score ≤ b.score := by
  cases l with
  | nil => cases h
  | cons q t =>
    unfold pyMaxByScore at h
    injection h with h
    subst h
    constructor
    · rcases foldl_max_mem t q with h | h
      · rw [h]; exact List.mem_cons_self q t
      · exact List.mem_cons_of_mem q h
    · intro x hx
      rcases List.mem_cons.mp hx with rfl | hx
      · exact (foldl_max_ge t x).1
      · exact (foldl_max_ge t q).2 x hx

theorem pyMinByScore_spec (l : List QuestionRecord) (b : QuestionRecord)
    (h : pyMinByScore l = some b) : b ∈ l ∧ ∀ x ∈ l, b.score ≤ x.score := by
  cases l with
  | nil => cases h
  | cons q t =>
    unfold pyMinByScore at h
    injection h with h
    subst h
    constructor
    · rcases foldl_min_mem t q with h | h
      · rw [h]; exact List.mem_cons_self q t
      · exact List.mem_cons_of_mem q h
    · intro x hx
      rcases List.mem_cons.mp hx with rfl | hx
      · exact (foldl_min_le t x).1
      · exact (foldl_min_le t q).2 x hx

theorem roundHalfEven_abs_sub (x : ℚ) : |(roundHalfEven x : ℚ) - x| ≤ 1/2 := by
  unfold roundHalfEven
  dsimp only
  have h0 : (⌊x⌋ : ℚ) ≤ x := Int.floor_le x
  have h1 : x < ⌊x⌋ + 1 := Int.lt_floor_add_one x
  split
  · rename_i h
    rw [abs_le]
    constructor <;> linarith
  · split
    · rename_i h h2
      rw [abs_le]
      constructor <;> push_cast <;> linarith
    · rename_i h h2
      have h3 : x - ⌊x⌋ = 1/2 := by linarith [le_of_not_lt h, le_of_not_lt h2]
      split <;> (rw [abs_le]; constructor <;> push_cast <;> linarith)

theorem pyRound1_abs_sub (x : ℚ) : |pyRound1 x - x| ≤ 1/20 := by
  unfold pyRound1
  have h := roundHalfEven_abs_sub (10 * x)
  rw [abs_le] at h ⊢
  obtain ⟨ha, hb⟩ := h
  constructor <;> linarith

/-- C8: the report partitions the question records as claimed: answered
are the non-skipped records with a (truthy) answer, best_answer is a
maximum-score record among answered records of category
technical/skill/project with score at least 6 (none when no record
qualifies), worst_answer is a minimum-score record among all answered
(none when none answered), and average_score is the answered mean
rounded to one decimal (so within 1/20 of the exact mean; 0 when none
answered since the rounding fixes 0). -/
theorem session_report_partition_best_worst_avg (s : Session) :
    (get_session_report s).answered = (s.questions.filter isAnswered).length
    ∧ (get_session_report s).skipped = (s.questions.filter (fun q => q.skipped)).length
    ∧ ((get_session_report s).best_answer = none ↔
        (s.questions.filter isAnswered).filter isTechnicalStrong = [])
    ∧ (∀ b, (get_session_report s).best_answer = some b →
        b ∈ s.questions.filter isAnswered ∧ isTechnicalStrong b = true
        ∧ ∀ x ∈ (s.questions.filter isAnswered).filter isTechnicalStrong,
            x.score ≤ b.score)
    ∧ ((get_session_report s).worst_answer = none ↔ s.questions.filter isAnswered = [])
    ∧ (∀ w, (get_session_report s).worst_answer = some w →
        w ∈ s.questions.filter isAnswered
        ∧ ∀ x ∈ s.questions.filter isAnswered, w.score ≤ x.score)
    ∧ (get_session_report s).average_score =
        pyRound1 (if (s.questions.filter isAnswered).isEmpty then 0
          else ((s.questions.filter isAnswered).map (fun q => (q.score : ℚ))).sum
            / (s.questions.filter isAnswered).length)
    ∧ |(get_session_report s).average_score -
        (if (s.questions.filter isAnswered).isEmpty then 0
          else ((s.questions.filter isAnswered).map (fun q => (q.score : ℚ))).sum
            / (s.questions.filter isAnswered).length)| ≤ 1/20 := by
  refine ⟨rfl, rfl, pyMaxByScore_eq_none _, ?_, pyMinByScore_eq_none _, ?_, rfl, ?_⟩
  · intro b hb
    obtain ⟨hmem, hmax⟩ := pyMaxByScore_spec _ b hb
    obtain ⟨h1, h2⟩ := List.mem_filter.mp hmem
    exact ⟨h1, h2, hmax⟩
  · intro w hw
    exact pyMinByScore_spec _ w hw
  · exact pyRound1_abs_sub _

/-- The report scenario from the specification: answered scores
3, 7, 9, 5, with the 9 of category project and the rest general. -/
def sessionR : Session :=
  { resume_summary := {}
    questions := [
      { question_number := 1, question := "q1", category := "general", answer := some "a1", score := 3, feedback := "f1" },
      { question_number := 2, question := "q2", category := "general", answer := some "a2", score := 7, feedback := "f2" },
      { question_number := 3, question := "q3", category := "project", answer := some "a3", score := 9, feedback := "f3" },
      { question_number := 4, question := "q4", category := "general", answer := some "a4", score := 5, feedback := "f4" }]
    current_question_index := 4
    started := true
    finished := true
    start_time := 2
    end_time := 12
    conversation_history := []
    current_topic := "t"
    topic_question_count := 1
    weak_streak := 0 }

/-- C8 witness: on the specification scenario, the best answer is the
score-9 project record, the worst is the score-3 record, and the mean is
exactly 6. -/
theorem session_report_partition_best_worst_avg_witness :
    ((get_session_report sessionR).answered = (sessionR.questions.filter isAnswered).length
    ∧ ({ question_number := 3, question := "q3", category := "project", answer := some "a3", score := 9, feedback := "f3" } : QuestionRecord)
        ∈ sessionR.questions.filter isAnswered
    ∧ (∀ x ∈ sessionR.questions.filter isAnswered,
        ({ question_number := 1, question := "q1", category := "general", answer := some "a1", score := 3, feedback := "f1" } : QuestionRecord).score ≤ x.score)
    ∧ (get_session_report sessionR).average_score =
        pyRound1 (if (sessionR.questions.filter isAnswered).isEmpty then 0
          else ((sessionR.questions.filter isAnswered).map (fun q => (q.score : ℚ))).sum
            / (sessionR.questions.filter isAnswered).length)) :=
  ⟨(session_report_partition_best_worst_avg sessionR).1,
   ((session_report_partition_best_worst_avg sessionR).2.2.2.1
      { question_number := 3, question := "q3", category := "project", answer := some "a3", score := 9, feedback := "f3" }
      (by decide)).1,
   ((session_report_partition_best_worst_avg sessionR).2.2.2.2.2.1
      { question_number := 1, question := "q1", category := "general", answer := some "a1", score := 3, feedback := "f1" }
      (by decide)).2,
   (session_report_partition_best_worst_avg sessionR).2.2.2.2.2.2.1⟩

/-! ### Chunking and word round-trip (C7) -/

/-- Words produced by splitting: nonempty and whitespace-free. -/
def GoodWords (ws : List Chars) : Prop :=
  ∀ w ∈ ws, w ≠ [] ∧ ∀ c ∈ w, pyIsSpace c = false

theorem chunksOf_nil (n : Nat) : chunksOf n ([] : List α) = [] := by
  rw [chunksOf]

theorem chunksOf_cons (n : Nat) (x : α) (xs : List α) :
    chunksOf n (x :: xs) =
      (x :: xs).take (max n 1) :: chunksOf n ((x :: xs).drop (max n 1)) := by
  rw [chunksOf]

theorem chunksOf_flatten (n : Nat) (l : List α) : (chunksOf n l).flatten = l := by
  have main : ∀ (k : Nat) (l : List α), l.length ≤ k → (chunksOf n l).flatten = l := by
    intro k
    induction k with
    | zero =>
      intro l hl
      have : l = [] := List.eq_nil_of_length_eq_zero (Nat.le_zero.mp hl)
      subst this
      rw [chunksOf_nil]
      rfl
    | succ k ih =>
      intro l hl
      match l with
      | [] => rw [chunksOf_nil]; rfl
      | x :: xs =>
        rw [chunksOf_cons, List.flatten_cons, ih ((x :: xs).drop (max n 1)) ?_,
          List.take_append_drop]
        have h1 : 1 ≤ max n 1 := Nat.le_max_right n 1
        simp only [List.length_drop, List.length_cons]
        simp only [List.length_cons] at hl
        omega
  exact main l.length l (Nat.le_refl _)

theorem chunksOf_length (n : Nat) (l : List α) :
    (chunksOf n l).length = (l.length + (max n 1) - 1) / (max n 1) := by
  have h1 : 1 ≤ max n 1 := Nat.le_max_right n 1
  have main : ∀ (k : Nat) (l : List α), l.length ≤ k →
      (chunksOf n l).length = (l.length + (max n 1) - 1) / (max n 1) := by
    intro k
    induction k with
    | zero =>
      intro l hl
      have : l = [] := List.eq_nil_of_length_eq_zero (Nat.le_zero.mp hl)
      subst this
      rw [chunksOf_nil]
      simp only [List.length_nil, Nat.zero_add]
      exact (Nat.div_eq_of_lt (by omega)).symm
    | succ k ih =>
      intro l hl
      match l with
      | [] =>
        rw [chunksOf_nil]
        simp only [List.length_nil, Nat.zero_add]
        exact (Nat.div_eq_of_lt (by omega)).symm
      | x :: xs =>
        rw [chunksOf_cons, List.length_cons,
          ih ((x :: xs).drop (max n 1)) ?_]
        · simp only [List.length_drop, List.length_cons]
          by_cases hc : xs.length + 1 ≤ max n 1
          · have hz : xs.length + 1 - max n 1 = 0 := by omega
            rw [hz]
            have hl0 : (0 + (max n 1) - 1) / (max n 1) = 0 :=
              Nat.div_eq_of_lt (by omega)
            rw [hl0]
            have : (xs.length + 1 + (max n 1) - 1) / (max n 1) = 1 := by
              apply Nat.div_eq_of_lt_le
              · omega
              · omega
            omega
          · have heq : xs.length + 1 + max n 1 - 1
                = (xs.length + 1 - max n 1 + (max n 1) - 1) + max n 1 := by omega
            rw [heq, Nat.add_div_right _ (by omega)]
        · simp only [List.length_drop, List.length_cons]
          simp only [List.length_cons] at hl
          omega
  exact main l.length l (Nat.le_refl _)

theorem chunksOf_ne_nil (n : Nat) (l : List α) :
    ∀ g ∈ chunksOf n l, g ≠ [] := by
  have main : ∀ (k : Nat) (l : List α), l.length ≤ k →
      ∀ g ∈ chunksOf n l, g ≠ [] := by
    intro k
    induction k with
    | zero =>
      intro l hl
      have : l = [] := List.eq_nil_of_length_eq_zero (Nat.le_zero.mp hl)
      subst this
      intro g hg
      rw [chunksOf_nil] at hg
      cases hg
    | succ k ih =>
      intro l hl
      match l with
      | [] =>
        intro g hg
        rw [chunksOf_nil] at hg
        cases hg
      | x :: xs =>
        rw [chunksOf_cons]
        intro g hg
        rcases List.mem_cons.mp hg with rfl | hg
        · rw [Ne, List.take_eq_nil_iff]
          rintro (h | h)
          · have : 1 ≤ max n 1 := Nat.le_max_right n 1
            omega
          · cases h
        · refine ih ((x :: xs).drop (max n 1)) ?_ g hg
          have h1 : 1 ≤ max n 1 := Nat.le_max_right n 1
          simp only [List.length_drop, List.length_cons]
          simp only [List.length_cons] at hl
          omega
  exact main l.length l (Nat.le_refl _)

theorem splitWsAux_good (s : Chars) :
    ∀ acc : Chars, (∀ c ∈ acc, pyIsSpace c = false) →
      GoodWords (splitWsAux s acc) := by
  induction s with
  | nil =>
    intro acc hacc w hw
    unfold splitWsAux at hw
    split at hw
    · cases hw
    · rename_i hne
      rcases List.mem_cons.mp hw with rfl | hw
      · constructor
        · intro hcontra
          rw [List.isEmpty_eq_true] at hne
          exact hne (by simpa using congrArg List.reverse hcontra)
        · intro c hc
          exact hacc c (List.mem_reverse.mp hc)
      · cases hw
  | cons c cs ih =>
    intro acc hacc w hw
    unfold splitWsAux at hw
    split at hw
    · split at hw
      · exact ih [] (by intro c hc; cases hc) w hw
      · rename_i hsp hne
        rcases List.mem_cons.mp hw with rfl | hw
        · constructor
          · intro hcontra
            rw [List.isEmpty_eq_true] at hne
            exact hne (by simpa using congrArg List.reverse hcontra)
          · intro d hd
            exact hacc d (List.mem_reverse.mp hd)
        · exact ih [] (by intro d hd; cases hd) w hw
    · rename_i hsp
      refine ih (c :: acc) ?_ w hw
      intro d hd
      rcases List.mem_cons.mp hd with rfl | hd
      · exact Bool.not_eq_true _ ▸ (by simpa using hsp)
      · exact hacc d hd

theorem splitWs_good (s : Chars) : GoodWords (splitWs s) :=
  splitWsAux_good s [] (by intro c hc; cases hc)

theorem splitWsAux_cons (c : Char) (cs acc : Chars) :
    splitWsAux (c :: cs) acc =
      if pyIsSpace c then
        (if acc.isEmpty then splitWsAux cs [] else acc.reverse :: splitWsAux cs [])
      else splitWsAux cs (c :: acc) := rfl

theorem splitWsAux_append_word (w : Chars) :
    ∀ (rest acc : Chars), (∀ c ∈ w, pyIsSpace c = false) →
      splitWsAux (w ++ rest) acc = splitWsAux rest (w.reverse ++ acc) := by
  induction w with
  | nil => intro rest acc _; simp
  | cons c w' ih =>
    intro rest acc hgood
    have hc : pyIsSpace c = false := hgood c (List.mem_cons_self c w')
    rw [List.cons_append, splitWsAux_cons, if_neg (by simp [hc]),
      ih rest (c :: acc) (fun d hd => hgood d (List.mem_cons_of_mem c hd))]
    simp [List.append_assoc]

theorem splitWs_joinWith (ws : List Chars) (h : GoodWords ws) :
    splitWs (joinWith ' ' ws) = ws := by
  induction ws with
  | nil => rfl
  | cons w t ih =>
    obtain ⟨hw, hgood⟩ := h w (List.mem_cons_self w t)
    cases t with
    | nil =>
      show splitWsAux (joinWith ' ' [w]) [] = [w]
      have : joinWith ' ' [w] = w ++ [] := by simp [joinWith]
      rw [this, splitWsAux_append_word w [] [] hgood]
      unfold splitWsAux
      rw [if_neg]
      · simp
      · simp [List.isEmpty_eq_true, hw]
    | cons w2 t2 =>
      have hjoin : joinWith ' ' (w :: w2 :: t2) = w ++ ' ' :: joinWith ' ' (w2 :: t2) := rfl
      show splitWsAux (joinWith ' ' (w :: w2 :: t2)) [] = w :: w2 :: t2
      rw [hjoin, splitWsAux_append_word w (' ' :: joinWith ' ' (w2 :: t2)) [] hgood]
      unfold splitWsAux
      rw [if_pos (by rfl)]
      rw [if_neg (by simp [List.isEmpty_eq_true, hw])]
      have ht : splitWsAux (joinWith ' ' (w2 :: t2)) [] = w2 :: t2 :=
        ih (fun x hx => h x (List.mem_cons_of_mem w hx))
      rw [ht]
      simp

theorem joinWith_append (sep : Char) (a b : List Chars) (ha : a ≠ []) (hb : b ≠ []) :
    joinWith sep (a ++ b) = joinWith sep a ++ sep :: joinWith sep b := by
  induction a with
  | nil => exact absurd rfl ha
  | cons w a' ih =>
    cases a' with
    | nil =>
      cases b with
      | nil => exact absurd rfl hb
      | cons b1 bt => rfl
    | cons v a'' =>
      have h1 : joinWith sep ((w :: v :: a'') ++ b)
          = w ++ sep :: joinWith sep ((v :: a'') ++ b) := rfl
      have h2 : joinWith sep (w :: v :: a'')
          = w ++ sep :: joinWith sep (v :: a'') := rfl
      rw [h1, ih (by simp), h2]
      simp [List.append_assoc]

theorem joinWith_map (sep : Char) (gs : List (List Chars)) (h : ∀ g ∈ gs, g ≠ []) :
    joinWith sep (gs.map (joinWith sep)) = joinWith sep gs.flatten := by
  induction gs with
  | nil => rfl
  | cons g t ih =>
    cases t with
    | nil => simp [joinWith]
    | cons g2 t2 =>
      have hg : g ≠ [] := h g (List.mem_cons_self g (g2 :: t2))
      have hg2 : g2 ≠ [] := h g2 (List.mem_cons_of_mem g (List.mem_cons_self g2 t2))
      have hflat : (g2 :: t2).flatten ≠ [] := by
        rw [List.flatten_cons]
        exact List.append_ne_nil_of_left_ne_nil hg2 _
      have hmap : joinWith sep ((g :: g2 :: t2).map (joinWith sep))
          = joinWith sep g ++ sep :: joinWith sep ((g2 :: t2).map (joinWith sep)) := rfl
      rw [hmap, ih (fun x hx => h x (List.mem_cons_of_mem g hx))]
      have h3 : (g :: g2 :: t2).flatten = g ++ (g2 :: t2).flatten := List.flatten_cons
      rw [h3, joinWith_append sep g (g2 :: t2).flatten hg hflat]

theorem mem_dropWhile (p : Char → Bool) (l : Chars) (c : Char)
    (hc : c ∈ l) (hp : p c = false) : c ∈ l.dropWhile p := by
  induction l with
  | nil => cases hc
  | cons x xs ih =>
    rw [List.dropWhile]
    rcases List.mem_cons.mp hc with rfl | hc
    · rw [hp]
      exact List.mem_cons_self c xs
    · split
      · exact ih hc
      · exact List.mem_cons_of_mem x hc

theorem pyStrip_ne_nil (l : Chars) (c : Char) (hc : c ∈ l)
    (hns : pyIsSpace c = false) : ¬(pyStrip l).isEmpty = true := by
  intro hcontra
  rw [List.isEmpty_eq_true] at hcontra
  unfold pyStrip at hcontra
  have h1 : (l.dropWhile pyIsSpace).reverse.dropWhile pyIsSpace = [] := by
    simpa using congrArg List.reverse hcontra
  rw [List.dropWhile_eq_nil_iff] at h1
  have h2 : c ∈ l.dropWhile pyIsSpace := mem_dropWhile pyIsSpace l c hc hns
  have h3 : c ∈ (l.dropWhile pyIsSpace).reverse := List.mem_reverse.mpr h2
  rw [h1 c h3] at hns
  cases hns

theorem head_mem_joinWith (sep : Char) (g : List Chars) (w : Chars) (c : Char)
    (hw : w ∈ g) (hc : c ∈ w) : c ∈ joinWith sep g := by
  induction g with
  | nil => cases hw
  | cons v t ih =>
    cases t with
    | nil =>
      rcases List.mem_cons.mp hw with rfl | hw
      · exact hc
      · cases hw
    | cons v2 t2 =>
      have : joinWith sep (v :: v2 :: t2) = v ++ sep :: joinWith sep (v2 :: t2) := rfl
      rw [this]
      rcases List.mem_cons.mp hw with rfl | hw
      · exact List.mem_append_left _ hc
      · exact List.mem_append_right _ (List.mem_cons_of_mem sep (ih hw))

/-- The chunk list actually stored for a document: the word windows of
size 100 rendered back to text.  Established as an intermediate step for
the ingestion claim. -/
theorem store_chunks_of_text_eq (text : Chars)
    (hne : splitWs text ≠ []) :
    store_chunks_of_text text 100
      = (chunksOf 100 (splitWs text)).map (joinWith ' ') := by
  have hgood : GoodWords (splitWs text) := splitWs_good text
  have hflat : (chunksOf 100 (splitWs text)).flatten = splitWs text :=
    chunksOf_flatten 100 (splitWs text)
  have hgood_groups : ∀ g ∈ chunksOf 100 (splitWs text), GoodWords g := by
    intro g hg w hw
    exact hgood w (by rw [← hflat]; exact List.mem_flatten.mpr ⟨g, hg, hw⟩)
  have hfilter : ∀ chunk ∈ (chunksOf 100 (splitWs text)).map (joinWith ' '),
      (!(pyStrip chunk).isEmpty) = true := by
    intro chunk hchunk
    obtain ⟨g, hgmem, rfl⟩ := List.mem_map.mp hchunk
    have hgne : g ≠ [] := chunksOf_ne_nil 100 (splitWs text) g hgmem
    obtain ⟨w, hwmem⟩ : ∃ w, w ∈ g := by
      cases g with
      | nil => exact absurd rfl hgne
      | cons w t => exact ⟨w, List.mem_cons_self w t⟩
    obtain ⟨hwne, hwchars⟩ := hgood_groups g hgmem w hwmem
    obtain ⟨c, hcmem⟩ : ∃ c, c ∈ w := by
      cases w with
      | nil => exact absurd rfl hwne
      | cons c t => exact ⟨c, List.mem_cons_self c t⟩
    have hstrip := pyStrip_ne_nil (joinWith ' ' g) c
      (head_mem_joinWith ' ' g w c hwmem hcmem) (hwchars c hcmem)
    cases hh : (pyStrip (joinWith ' ' g)).isEmpty with
    | false => rfl
    | true => exact absurd hh hstrip
  have hgroups_ne_nil : chunksOf 100 (splitWs text) ≠ [] := by
    cases hw : splitWs text with
    | nil => exact absurd hw hne
    | cons x xs =>
      rw [chunksOf_cons]
      exact List.cons_ne_nil _ _
  unfold store_chunks_of_text
  dsimp only
  have hmax : max 100 1 = 100 := rfl
  rw [hmax, List.filter_eq_self.mpr hfilter, if_neg]
  rw [List.isEmpty_eq_true, List.map_eq_nil_iff]
  exact hgroups_ne_nil

/-- C7: ingesting a document with at least one whitespace-separated word
at chunk size 100 stores, under its key and replacing whatever was there,
exactly ceil(k/100) chunks whose word sequences are the consecutive
non-overlapping windows of the document's words (the last possibly
shorter); and reading the full text back and re-splitting it yields
exactly the original word sequence. -/
theorem ingest_chunk_count_and_roundtrip (text : Chars) (k : Nat)
    (hk : (splitWs text).length = k) (h1 : 1 ≤ k) (st : RagStore) (sid : String) :
    store_resume_chunks st sid text 100 sid = some (store_chunks_of_text text 100)
    ∧ (store_chunks_of_text text 100).length = (k + 99) / 100
    ∧ (store_chunks_of_text text 100).map splitWs = chunksOf 100 (splitWs text)
    ∧ splitWs (get_full_resume_text (store_resume_chunks st sid text 100) sid)
        = splitWs text := by
  have hne : splitWs text ≠ [] := by
    intro h
    rw [h] at hk
    simp at hk
    omega
  have hchunks := store_chunks_of_text_eq text hne
  have hgood : GoodWords (splitWs text) := splitWs_good text
  have hflat : (chunksOf 100 (splitWs text)).flatten = splitWs text :=
    chunksOf_flatten 100 (splitWs text)
  have hgood_groups : ∀ g ∈ chunksOf 100 (splitWs text), GoodWords g := by
    intro g hg w hw
    exact hgood w (by rw [← hflat]; exact List.mem_flatten.mpr ⟨g, hg, hw⟩)
  have hlookup : store_resume_chunks st sid text 100 sid
      = some (store_chunks_of_text text 100) := by
    unfold store_resume_chunks
    rw [if_pos rfl]
  refine ⟨hlookup, ?_, ?_, ?_⟩
  · rw [hchunks, List.length_map, chunksOf_length, hk]
    have hmax : max 100 1 = 100 := rfl
    rw [hmax, show k + 100 - 1 = k + 99 from by omega]
  · rw [hchunks, List.map_map]
    have heach : ∀ g ∈ chunksOf 100 (splitWs text),
        (splitWs ∘ joinWith ' ') g = id g :=
      fun g hg => splitWs_joinWith g (hgood_groups g hg)
    rw [List.map_congr_left heach, List.map_id]
  · unfold get_full_resume_text
    rw [hlookup]
    show splitWs (joinWith ' ' (store_chunks_of_text text 100)) = splitWs text
    rw [hchunks,
      joinWith_map ' ' (chunksOf 100 (splitWs text)) (chunksOf_ne_nil 100 (splitWs text)),
      hflat, splitWs_joinWith (splitWs text) hgood]

/-- C7 witness: the two-word document "hi there" under chunk size 100
into the empty store: one chunk, window structure, and round trip. -/
theorem ingest_chunk_count_and_roundtrip_witness :
    (let text : Chars := ['h', 'i', ' ', 't', 'h', 'e', 'r', 'e']
     store_resume_chunks emptyStore "s" text 100 "s"
        = some (store_chunks_of_text text 100)
     ∧ (store_chunks_of_text text 100).length = (2 + 99) / 100
     ∧ (store_chunks_of_text text 100).map splitWs = chunksOf 100 (splitWs text)
     ∧ splitWs (get_full_resume_text (store_resume_chunks emptyStore "s" text 100) "s")
        = splitWs text) :=
  ingest_chunk_count_and_roundtrip ['h', 'i', ' ', 't', 'h', 'e', 'r', 'e'] 2
    (by decide) (by decide) emptyStore "s"

end AiInterviewer
